import Mathlib

/-!
Verification of the actinia-core job dispatch and mutual-exclusion subsystem.

The repository slice under inspection contains the REST resource classes
(`src/actinia_core/rest/mapset_management.py`) and a test harness; the Lock
Manager, Job Queue, Status Tracker and Dispatcher live outside this slice, so
those components are modelled from the specification (each such definition is
marked `Modelled from the spec:`).  The REST resource methods themselves are
embedded directly from `mapset_management.py`.
-/

namespace Actinia

/-! ## Data model and operations -/

/-- Modelled from the spec: the `LockRecord` data model (§3) — the Lock
Manager's code is not in the repository slice.  Value stored at a canonical
resource path: holder identity, acquisition timestamp, TTL. -/
structure LockRecord where
  holder : String
  acquiredAt : Nat
  ttl : Nat
deriving Repr, DecidableEq

/-- Modelled from the spec: the Resource Store's key space for locks — a
total map from canonical resource paths to at most one stored record. -/
def LockStore : Type := String → Option LockRecord

/-- Modelled from the spec: a record is unexpired at instant `now` while
fewer than `ttl` time units have elapsed since acquisition. -/
def LockRecord.unexpired (r : LockRecord) (now : Nat) : Bool :=
  now < r.acquiredAt + r.ttl

/-- Modelled from the spec: reading a key through the store; the store (not
the subsystem) enforces TTL expiry, so an expired record reads as absent. -/
def lockGet (st : LockStore) (path : String) (now : Nat) : Option LockRecord :=
  match st path with
  | some r => if r.unexpired now then some r else none
  | none => none

/-- Modelled from the spec: deleting a key from the store. -/
def lockDelete (st : LockStore) (path : String) : LockStore :=
  fun p => if p = path then none else st p

/-- Modelled from the spec: storing a record at a key. -/
def lockPut (st : LockStore) (path : String) (r : LockRecord) : LockStore :=
  fun p => if p = path then some r else st p

/-- Modelled from the spec: `Lock Manager.acquire(path, holder, ttl)` (§4.1)
— atomic create-if-absent of a LockRecord; returns true iff this call
created the record.  An expired record counts as absent. -/
def acquire (st : LockStore) (path holder : String) (ttl now : Nat) :
    Bool × LockStore :=
  match lockGet st path now with
  | some _ => (false, st)
  | none => (true, lockPut st path ⟨holder, now, ttl⟩)

/-- Modelled from the spec: `Lock Manager.release(path, holder)` (§4.1) —
deletes the LockRecord at `path` iff its holder matches; otherwise a no-op
that signals a (non-fatal) failure. -/
def release (st : LockStore) (path holder : String) (now : Nat) :
    Bool × LockStore :=
  match lockGet st path now with
  | some r => if r.holder = holder then (true, lockDelete st path) else (false, st)
  | none => (false, st)

/-- Modelled from the spec: `Lock Manager.status(path)` (§4.1) — read-only
query returning the current unexpired LockRecord, if any, together with the
(untouched) store. -/
def lockStatus (st : LockStore) (path : String) (now : Nat) :
    Option LockRecord × LockStore :=
  (lockGet st path now, st)

/-- A batch of acquire calls on the same path issued at the same instant;
the store serialises them, applying each atomically in list order. -/
def acquireAll (st : LockStore) (path : String) (calls : List (String × Nat))
    (now : Nat) : List Bool × LockStore :=
  match calls with
  | [] => ([], st)
  | (h, t) :: rest =>
      let step := acquire st path h t now
      let restRes := acquireAll step.2 path rest now
      (step.1 :: restRes.1, restRes.2)

/-- A concrete one-lock store used by witnesses: "loc/mapset" is held by
"worker-A" since time 0 with TTL 5. -/
def lockStoreA : LockStore :=
  fun p => if p = "loc/mapset" then some ⟨"worker-A", 0, 5⟩ else none

/-- Modelled from the spec: the job lifecycle states (§4.3) — the Status
Tracker's code is not in the repository slice. -/
inductive JobState where
  | accepted
  | running
  | finished
  | error
  | timeout
deriving Repr, DecidableEq, Fintype

/-- Modelled from the spec: the allowed transitions of §4.3 —
`accepted → running → {finished, error, timeout}`; no transition leaves a
terminal state. -/
def canTransition : JobState → JobState → Bool
  | .accepted, .running => true
  | .running, .finished => true
  | .running, .error => true
  | .running, .timeout => true
  | _, _ => false

/-- Modelled from the spec: `finished`, `error`, `timeout` are terminal. -/
def isTerminal : JobState → Bool
  | .finished => true
  | .error => true
  | .timeout => true
  | _ => false

/-- Reachability in zero or more transitions (the only chains have length
at most two, through `running`). -/
def reachable (a b : JobState) : Bool :=
  a == b || canTransition a b || (canTransition a .running && canTransition .running b)

/-- Modelled from the spec: the per-job record of the Status Tracker (§3):
state, append-only progress log, result payload, error payload and
timestamps. -/
structure JobStatusRecord where
  state : JobState
  progress : List String
  result : Option String
  errorPayload : Option (String × String)
  enqueuedAt : Nat
  startedAt : Option Nat
  endedAt : Option Nat
deriving Repr, DecidableEq

/-- Modelled from the spec: one observable change of a job's record
between two reads (§4.3, §5) — the record stays put, or its single
legitimate writer performs one allowed state transition, or a progress
message is appended while the state is `running`. -/
def RecordStep (r r' : JobStatusRecord) : Prop :=
  r' = r ∨ canTransition r.state r'.state = true ∨
  (r.state = .running ∧
    ∃ msg, r' = { r with progress := r.progress ++ [msg] })

/-- A reader-observable history of one job's record: every instant-to-
instant change is one of the record steps the spec allows (stutter, an
allowed state transition, or a progress append while running). -/
def MonotoneTrace (trace : Nat → JobStatusRecord) : Prop :=
  ∀ n, RecordStep (trace n) (trace (n + 1))

/-- Concrete sample records and history used by witnesses. -/
def sampleAcc : JobStatusRecord := ⟨.accepted, [], none, none, 0, none, none⟩

def sampleRun : JobStatusRecord := ⟨.running, [], none, none, 0, some 1, none⟩

def sampleRunLogged : JobStatusRecord :=
  ⟨.running, ["step1"], none, none, 0, some 1, none⟩

def sampleFin : JobStatusRecord :=
  ⟨.finished, ["step1"], some "result", none, 0, some 1, some 2⟩

def sampleTrace : Nat → JobStatusRecord
  | 0 => sampleAcc
  | 1 => sampleRun
  | 2 => sampleRunLogged
  | _ => sampleFin

/-- Modelled from the spec: RequestDescriptor (§3) — immutable snapshot of
what a worker needs: target namespace path, acting principal, opaque
processing-chain spec, enqueue timestamp and timeout budget. -/
structure RequestDescriptor where
  locationName : String
  mapsetName : String
  principal : String
  processChain : String
  timeoutBudget : Nat
deriving Repr, DecidableEq

/-- Modelled from the spec: QueueEntry (§3) — a RequestDescriptor plus the
processing callable reference, stamped with the job identifier at enqueue
time. -/
structure QueueEntry where
  descriptor : RequestDescriptor
  callable : String
  jobId : Nat
deriving Repr, DecidableEq

/-- Modelled from the spec: the Resource Store's job and queue key spaces
(`job:<id>`, `queue:<name>`, §6) together with the fresh-identifier
source. -/
structure SysState where
  jobs : Nat → Option JobStatusRecord
  queues : String → List QueueEntry
  nextId : Nat

/-- Job identifiers at or above the fresh counter are unused. -/
def SysWF (s : SysState) : Prop :=
  ∀ j, s.nextId ≤ j → s.jobs j = none

/-- Modelled from the spec: `Job Queue.enqueue(queue_name, entry)` (§4.2) —
generates a fresh job identifier, creates the JobStatusRecord in state
`accepted`, pushes the entry onto the named FIFO, returns the identifier;
atomic with respect to record creation. -/
def enqueue (s : SysState) (qname : String) (d : RequestDescriptor)
    (callable : String) (now : Nat) : Nat × SysState :=
  ( s.nextId,
    { jobs := fun j => if j = s.nextId then
        some ⟨.accepted, [], none, none, now, none, none⟩ else s.jobs j,
      queues := fun q => if q = qname then
        s.queues q ++ [⟨d, callable, s.nextId⟩] else s.queues q,
      nextId := s.nextId + 1 } )

/-- Modelled from the spec: the Status Tracker read used by pollers. -/
def jobStatus (s : SysState) (id : Nat) : Option JobStatusRecord := s.jobs id

/-- Modelled from the spec: `Job Queue.dequeue` (§4.2) — pop the front of
the named FIFO; returns nothing when the queue is empty. -/
def dequeue (s : SysState) (qname : String) : Option QueueEntry × SysState :=
  match s.queues qname with
  | [] => (none, s)
  | e :: rest =>
      (some e,
       { s with queues := fun q => if q = qname then rest else s.queues q })

/-- Modelled from the spec: the Job Runner's `accepted → running` write
(§4.3), performed after dequeue and before invoking the callable. -/
def markRunning (s : SysState) (id now : Nat) : SysState :=
  match s.jobs id with
  | some r =>
      if r.state = .accepted then
        { s with jobs := fun j =>
            if j = id then some { r with state := .running, startedAt := some now }
            else s.jobs j }
      else s
  | none => s

/-- Modelled from the spec: the Job Runner's `running → finished` write
(§4.3) with the success payload attached. -/
def markFinished (s : SysState) (id : Nat) (payload : String) (now : Nat) :
    SysState :=
  match s.jobs id with
  | some r =>
      if r.state = .running then
        { s with jobs := fun j =>
            if j = id then
              some { r with state := .finished, result := some payload,
                            endedAt := some now }
            else s.jobs j }
      else s
  | none => s

/-- Modelled from the spec: the Job Runner's `running → error` write (§4.3)
with a structured error payload (kind + message). -/
def markError (s : SysState) (id : Nat) (kind msg : String) (now : Nat) :
    SysState :=
  match s.jobs id with
  | some r =>
      if r.state = .running then
        { s with jobs := fun j =>
            if j = id then
              some { r with state := .error, errorPayload := some (kind, msg),
                            endedAt := some now }
            else s.jobs j }
      else s
  | none => s

/-- Modelled from the spec: the Dispatcher's `running → timeout` write
(§4.3), reflecting the waiter's view when its bounded wait expires. -/
def markTimeout (s : SysState) (id now : Nat) : SysState :=
  match s.jobs id with
  | some r =>
      if r.state = .running then
        { s with jobs := fun j =>
            if j = id then some { r with state := .timeout, endedAt := some now }
            else s.jobs j }
      else s
  | none => s

/-- Modelled from the spec: appending a progress message while the job is
`running` (§4.3). -/
def appendProgress (s : SysState) (id : Nat) (msg : String) : SysState :=
  match s.jobs id with
  | some r =>
      if r.state = .running then
        { s with jobs := fun j =>
            if j = id then some { r with progress := r.progress ++ [msg] }
            else s.jobs j }
      else s
  | none => s

/-- Modelled from the spec: one atomic operation on the shared store
(§4.2–§4.4, §5) performed by any dispatcher or worker process. -/
inductive SysStep : SysState → SysState → Prop where
  | enq (s : SysState) (qname : String) (d : RequestDescriptor)
      (callable : String) (now : Nat) :
      SysStep s (enqueue s qname d callable now).2
  | deq (s : SysState) (qname : String) : SysStep s (dequeue s qname).2
  | toRunning (s : SysState) (id now : Nat) : SysStep s (markRunning s id now)
  | toFinished (s : SysState) (id : Nat) (payload : String) (now : Nat) :
      SysStep s (markFinished s id payload now)
  | toError (s : SysState) (id : Nat) (kind msg : String) (now : Nat) :
      SysStep s (markError s id kind msg now)
  | toTimeout (s : SysState) (id now : Nat) : SysStep s (markTimeout s id now)
  | prog (s : SysState) (id : Nat) (msg : String) :
      SysStep s (appendProgress s id msg)

/-- Zero or more atomic operations by any process. -/
def SysSteps : SysState → SysState → Prop := Relation.ReflTransGen SysStep

/-- A concrete empty system state and enqueue used by witnesses. -/
def sys0 : SysState := ⟨fun _ => none, fun _ => [], 0⟩

def sampleDescriptor : RequestDescriptor :=
  ⟨"nc_spm_08", "PERMANENT", "user-1", "chain", 10⟩

def sysEnq : SysState :=
  (enqueue sys0 "default" sampleDescriptor "read_current_region" 0).2

/-- Modelled from the spec: the waiting half of
`Dispatcher.submit_and_wait(queue_name, descriptor, timeout)` (§4.4) — the
Dispatcher's code is not in the repository slice.  The waiter polls the
job's record once per interval from enqueue up to the client-side timeout;
it returns the first observed terminal state with its result payload, or
`(timeout, none)` when no terminal state was observed in time.  The waiter
only reads: the worker's writes are the history `trace` itself, which the
waiter cannot alter — the job continues server-side. -/
def waitForTerminal (trace : Nat → JobStatusRecord) (timeout : Nat) :
    JobState × Option String :=
  match (List.range (timeout + 1)).find? (fun t => isTerminal (trace t).state) with
  | some t => ((trace t).state, (trace t).result)
  | none => (.timeout, none)

/-- The request-description object that `self.preprocess` builds for an
endpoint; `preprocess` itself belongs to the excluded HTTP layer
(`ResourceBase`), so each embedded method takes its result as input —
`none` models a failed (falsy) preprocessing result. -/
structure Rdc where
  locationName : String
  mapsetName : String
deriving Repr, DecidableEq

/-- The externally visible effect of one endpoint method: the entries
handed to `enqueue_job` (processing-callable name paired with the `rdc`
argument passed along), and whether the method returns an HTTP response at
all. -/
structure EndpointOutcome where
  enqueued : List (String × Option Rdc)
  producesResponse : Bool
deriving Repr, DecidableEq

namespace ListMapsetsResource

/-- Embeds `ListMapsetsResource.get` (mapset_management.py lines 96-108):
`rdc = self.preprocess(...)`; only `if rdc:` does it call
`enqueue_job(self.job_timeout, list_raster_mapsets, rdc)` and wait;
otherwise it responds from the pickled error in `self.response_data`. -/
def get (rdc : Option Rdc) : EndpointOutcome :=
  match rdc with
  | some _ => ⟨[("list_raster_mapsets", rdc)], true⟩
  | none => ⟨[], true⟩

end ListMapsetsResource

namespace MapsetManagementResourceUser

/-- Embeds `MapsetManagementResourceUser.get` (lines 153-163): it calls
`enqueue_job(self.job_timeout, read_current_region, rdc)` unconditionally —
there is no `if rdc:` guard — then waits and responds. -/
def get (rdc : Option Rdc) : EndpointOutcome :=
  ⟨[("read_current_region", rdc)], true⟩

end MapsetManagementResourceUser

namespace MapsetManagementResourceAdmin

/-- Embeds `MapsetManagementResourceAdmin.post` (lines 208-217):
unconditional `enqueue_job(self.job_timeout, create_mapset, rdc)`. -/
def post (rdc : Option Rdc) : EndpointOutcome :=
  ⟨[("create_mapset", rdc)], true⟩

/-- Embeds `MapsetManagementResourceAdmin.put` (lines 219-233): the body is
`pass` (the docstring says "TODO: Implement region setting"), so the method
enqueues nothing and returns `None` — no HTTP response is produced. -/
def put (_locationName _mapsetName : String) : EndpointOutcome :=
  ⟨[], false⟩

/-- Embeds `MapsetManagementResourceAdmin.delete` (lines 265-274):
unconditional `enqueue_job(self.job_timeout, delete_mapset, rdc)`. -/
def delete (rdc : Option Rdc) : EndpointOutcome :=
  ⟨[("delete_mapset", rdc)], true⟩

end MapsetManagementResourceAdmin

namespace MapsetLockManagementResource

/-- Embeds `MapsetLockManagementResource.get` (lines 317-326):
unconditional `enqueue_job(self.job_timeout, get_mapset_lock, rdc)`. -/
def get (rdc : Option Rdc) : EndpointOutcome :=
  ⟨[("get_mapset_lock", rdc)], true⟩

/-- Embeds `MapsetLockManagementResource.post` (lines 364-373):
unconditional `enqueue_job(self.job_timeout, lock_mapset, rdc)`. -/
def post (rdc : Option Rdc) : EndpointOutcome :=
  ⟨[("lock_mapset", rdc)], true⟩

/-- Embeds `MapsetLockManagementResource.delete` (lines 411-420):
unconditional `enqueue_job(self.job_timeout, unlock_mapset, rdc)`. -/
def delete (rdc : Option Rdc) : EndpointOutcome :=
  ⟨[("unlock_mapset", rdc)], true⟩

end MapsetLockManagementResource

/-! ## Theorems -/

theorem lockGet_of_none {st : LockStore} {path : String} {now : Nat}
    (hst : st path = none) : lockGet st path now = none := by
  unfold lockGet; rw [hst]

theorem lockGet_of_some {st : LockStore} {path : String} {r : LockRecord}
    {now : Nat} (hst : st path = some r) :
    lockGet st path now = if r.unexpired now then some r else none := by
  unfold lockGet; rw [hst]

theorem lockGet_lockPut_self (st : LockStore) (path : String) (r : LockRecord)
    (now : Nat) :
    lockGet (lockPut st path r) path now =
      if r.unexpired now then some r else none := by
  apply lockGet_of_some
  simp [lockPut]

theorem acquire_of_absent {st : LockStore} {path h : String} {t now : Nat}
    (hget : lockGet st path now = none) :
    acquire st path h t now = (true, lockPut st path ⟨h, now, t⟩) := by
  unfold acquire; rw [hget]

theorem acquire_of_held {st : LockStore} {path h : String} {r : LockRecord}
    {t now : Nat} (hget : lockGet st path now = some r) :
    acquire st path h t now = (false, st) := by
  unfold acquire; rw [hget]

theorem release_of_absent {st : LockStore} {path holder : String} {now : Nat}
    (hget : lockGet st path now = none) :
    release st path holder now = (false, st) := by
  unfold release; rw [hget]

theorem release_of_owner {st : LockStore} {path holder : String}
    {r : LockRecord} {now : Nat} (hget : lockGet st path now = some r)
    (hh : r.holder = holder) :
    release st path holder now = (true, lockDelete st path) := by
  unfold release; simp only [hget, hh, if_true]

theorem release_of_foreign {st : LockStore} {path holder : String}
    {r : LockRecord} {now : Nat} (hget : lockGet st path now = some r)
    (hh : ¬ r.holder = holder) :
    release st path holder now = (false, st) := by
  unfold release; simp only [hget, hh, if_false]

theorem acquireAll_locked {path : String} {r : LockRecord} {now : Nat}
    (calls : List (String × Nat)) :
    ∀ st : LockStore, lockGet st path now = some r →
      (acquireAll st path calls now).1.count true = 0 := by
  induction calls with
  | nil => intro st _; rfl
  | cons c rest ih =>
      intro st hr
      obtain ⟨h, t⟩ := c
      simp only [acquireAll, acquire_of_held hr]
      have := ih st hr
      simpa [List.count_cons] using this

/-- C1: among any batch of concurrent acquire calls (each with positive TTL)
on one path, at most one returns true — mutual exclusion enforced by the
store's atomic set-if-absent — and as long as an unexpired record exists at
the path (not released, TTL not expired), every further acquire on it
returns false. -/
theorem lock_mutual_exclusion (st : LockStore) (path : String)
    (calls : List (String × Nat)) (now : Nat)
    (hpos : ∀ c ∈ calls, 0 < c.2) :
    (acquireAll st path calls now).1.count true ≤ 1 ∧
    ∀ st2 : LockStore, ∀ r : LockRecord, ∀ h2 : String, ∀ t2 now2 : Nat,
      lockGet st2 path now2 = some r → (acquire st2 path h2 t2 now2).1 = false := by
  refine ⟨?_, fun st2 r h2 t2 now2 hget => by rw [acquire_of_held hget]⟩
  induction calls generalizing st with
  | nil => simp [acquireAll]
  | cons c rest ih =>
      obtain ⟨h, t⟩ := c
      have hposc : 0 < t := hpos (h, t) (List.mem_cons_self _ _)
      have hposr : ∀ c ∈ rest, 0 < c.2 := fun c hc => hpos c (List.mem_cons_of_mem _ hc)
      cases hget : lockGet st path now with
      | some r =>
          simp only [acquireAll, acquire_of_held hget]
          simpa [List.count_cons] using ih st hposr
      | none =>
          simp only [acquireAll, acquire_of_absent hget]
          have hlock : lockGet (lockPut st path ⟨h, now, t⟩) path now =
              some ⟨h, now, t⟩ := by
            rw [lockGet_lockPut_self]
            have : (LockRecord.mk h now t).unexpired now = true := by
              simp [LockRecord.unexpired]; omega
            rw [this]; simp
          have hzero := acquireAll_locked rest _ hlock
          simp [List.count_cons, hzero]

/-- C1 witness: three concurrent acquires on an initially unlocked path —
at most one succeeds — and a further acquire against a held store fails. -/
theorem lock_mutual_exclusion_witness :
    (∀ c ∈ [("worker-A", 5), ("worker-B", 5), ("worker-C", 5)], 0 < c.2) ∧
    ((acquireAll (fun _ => none) "loc/mapset"
        [("worker-A", 5), ("worker-B", 5), ("worker-C", 5)] 0).1.count true ≤ 1) ∧
    (acquire lockStoreA "loc/mapset" "worker-B" 5 1).1 = false :=
  ⟨by decide,
   (lock_mutual_exclusion (fun _ => none) "loc/mapset"
     [("worker-A", 5), ("worker-B", 5), ("worker-C", 5)] 0 (by decide)).1,
   (lock_mutual_exclusion (fun _ => none) "loc/mapset"
     [("worker-A", 5), ("worker-B", 5), ("worker-C", 5)] 0 (by decide)).2
     lockStoreA ⟨"worker-A", 0, 5⟩ "worker-B" 5 1 (by decide)⟩

/-- C5: `release(path, holder)` succeeds and deletes the record iff an
unexpired record exists at `path` with a matching holder; otherwise it fails
and leaves the store untouched. -/
theorem release_owner_checked (st : LockStore) (path holder : String) (now : Nat) :
    ((release st path holder now).1 = true ↔
      ∃ r, lockGet st path now = some r ∧ r.holder = holder) ∧
    (release st path holder now).2 =
      (if (release st path holder now).1 then lockDelete st path else st) := by
  cases hget : lockGet st path now with
  | some r =>
      by_cases hh : r.holder = holder
      · rw [release_of_owner hget hh]
        exact ⟨⟨fun _ => ⟨r, rfl, hh⟩, fun _ => rfl⟩, rfl⟩
      · rw [release_of_foreign hget hh]
        refine ⟨⟨fun hfalse => absurd hfalse (by simp), ?_⟩, rfl⟩
        rintro ⟨r', hr', hh'⟩
        cases hr'
        exact absurd hh' hh
  | none =>
      rw [release_of_absent hget]
      refine ⟨⟨fun hfalse => absurd hfalse (by simp), ?_⟩, rfl⟩
      rintro ⟨r', hr', _⟩
      exact Option.noConfusion hr'

/-- C5 witness: with a store holding an unexpired lock for "worker-A",
release by "worker-A" succeeds and release by "worker-B" fails. -/
theorem release_owner_checked_witness :
    (release lockStoreA "loc/mapset" "worker-A" 1).1 = true ∧
    (release lockStoreA "loc/mapset" "worker-B" 1).1 = false := by
  refine ⟨(release_owner_checked lockStoreA "loc/mapset" "worker-A" 1).1.mpr
    ⟨⟨"worker-A", 0, 5⟩, by decide, rfl⟩, ?_⟩
  cases hb : (release lockStoreA "loc/mapset" "worker-B" 1).1 with
  | false => rfl
  | true =>
      obtain ⟨r, hr, hh⟩ :=
        (release_owner_checked lockStoreA "loc/mapset" "worker-B" 1).1.mp hb
      have hval : lockGet lockStoreA "loc/mapset" 1 = some ⟨"worker-A", 0, 5⟩ := by
        decide
      rw [hval] at hr
      cases hr
      exact absurd hh (by decide)

/-- C6: after a successful release, a second release of the same path is a
harmless no-op — it reports failure (not an exception) and leaves the store
exactly as the first release left it, so two releases equal one. -/
theorem release_idempotent (st : LockStore) (path holder holder' : String)
    (now now' : Nat) (hfirst : (release st path holder now).1 = true) :
    (release (release st path holder now).2 path holder' now').1 = false ∧
    (release (release st path holder now).2 path holder' now').2 =
      (release st path holder now).2 := by
  have hrel : release st path holder now = (true, lockDelete st path) := by
    cases hget : lockGet st path now with
    | some r =>
        by_cases hh : r.holder = holder
        · exact release_of_owner hget hh
        · rw [release_of_foreign hget hh] at hfirst; simp at hfirst
    | none => rw [release_of_absent hget] at hfirst; simp at hfirst
  have hgone : (release st path holder now).2 path = none := by
    rw [hrel]; simp [lockDelete]
  have hget' : lockGet (release st path holder now).2 path now' = none :=
    lockGet_of_none hgone
  rw [release_of_absent hget']
  exact ⟨rfl, rfl⟩

/-- C6 witness: concrete double release. -/
theorem release_idempotent_witness :
    ((release lockStoreA "loc/mapset" "worker-A" 1).1 = true) ∧
    ((release (release lockStoreA "loc/mapset" "worker-A" 1).2
        "loc/mapset" "worker-A" 2).1 = false) :=
  ⟨by decide,
   (release_idempotent lockStoreA
     "loc/mapset" "worker-A" "worker-A" 1 2 (by decide)).1⟩

/-- C7: TTL expiry reclaims a lock.  Starting from a path with no record,
holder A acquires with TTL `ttl` at time 0 (true); a competing acquire by B
at any instant before expiry fails; once `ttl` has elapsed with no refresh,
an acquire by B succeeds. -/
theorem ttl_expiry_reclaims (st : LockStore) (path hA hB : String)
    (ttl t1 t2 : Nat) (hempty : st path = none)
    (hbefore : t1 < ttl) (hafter : ttl ≤ t2) :
    (acquire st path hA ttl 0).1 = true ∧
    (acquire (acquire st path hA ttl 0).2 path hB ttl t1).1 = false ∧
    (acquire (acquire st path hA ttl 0).2 path hB ttl t2).1 = true := by
  have hget0 : lockGet st path 0 = none := lockGet_of_none hempty
  have hfirst : acquire st path hA ttl 0 = (true, lockPut st path ⟨hA, 0, ttl⟩) :=
    acquire_of_absent hget0
  refine ⟨by rw [hfirst], ?_, ?_⟩
  · have hget1 : lockGet (acquire st path hA ttl 0).2 path t1 = some ⟨hA, 0, ttl⟩ := by
      rw [hfirst]
      rw [lockGet_lockPut_self]
      have hun : (LockRecord.mk hA 0 ttl).unexpired t1 = true := by
        simp [LockRecord.unexpired]; omega
      rw [hun]; simp
    rw [acquire_of_held hget1]
  · have hget2 : lockGet (acquire st path hA ttl 0).2 path t2 = none := by
      rw [hfirst]
      rw [lockGet_lockPut_self]
      have hun : (LockRecord.mk hA 0 ttl).unexpired t2 = false := by
        simp [LockRecord.unexpired]; omega
      rw [hun]; simp
    rw [acquire_of_absent hget2]

/-- C7 witness: the spec's concrete scenario — TTL 5, contention at t=3
fails, re-acquisition at t=6 succeeds. -/
theorem ttl_expiry_reclaims_witness :
    ((fun _ => none : LockStore) "loc/mapset" = none) ∧ 3 < 5 ∧ 5 ≤ 6 ∧
    ((acquire (fun _ => none) "loc/mapset" "worker-A" 5 0).1 = true ∧
     (acquire (acquire (fun _ => none) "loc/mapset" "worker-A" 5 0).2
        "loc/mapset" "worker-B" 5 3).1 = false ∧
     (acquire (acquire (fun _ => none) "loc/mapset" "worker-A" 5 0).2
        "loc/mapset" "worker-B" 5 6).1 = true) :=
  ⟨rfl, by decide, by decide,
   ttl_expiry_reclaims (fun _ => none) "loc/mapset" "worker-A" "worker-B"
     5 3 6 rfl (by decide) (by decide)⟩

theorem reachable_refl (a : JobState) : reachable a a = true := by
  cases a <;> decide

theorem reachable_of_canTransition {a b : JobState}
    (h : canTransition a b = true) : reachable a b = true := by
  revert h; cases a <;> cases b <;> decide

theorem reachable_trans {a b c : JobState} (hab : reachable a b = true)
    (hbc : reachable b c = true) : reachable a c = true := by
  revert hab hbc; cases a <;> cases b <;> cases c <;> decide

theorem terminal_no_transition {a b : JobState} (ha : isTerminal a = true) :
    canTransition a b = false := by
  revert ha; cases a <;> cases b <;> decide

theorem terminal_stable {trace : Nat → JobStatusRecord}
    (hm : MonotoneTrace trace) {n : Nat}
    (ht : isTerminal (trace n).state = true) :
    ∀ m, n ≤ m → trace m = trace n := by
  intro m hnm
  induction m, hnm using Nat.le_induction with
  | base => rfl
  | succ m hnm ih =>
      rcases hm m with heq | htr | ⟨hrun, msg, happ⟩
      · rw [heq, ih]
      · rw [ih] at htr
        rw [terminal_no_transition ht] at htr
        cases htr
      · rw [ih] at hrun
        rw [hrun] at ht
        exact absurd ht (by decide)

/-- C2: once a job's record reaches a terminal state (`finished`, `error`
or `timeout`), every later read along a transition-respecting history
returns the identical record — no further transition is observable and the
terminal payload is stable. -/
theorem terminal_state_monotonic (trace : Nat → JobStatusRecord)
    (hm : MonotoneTrace trace) (n : Nat)
    (ht : isTerminal (trace n).state = true) :
    ∀ m, n ≤ m → trace m = trace n :=
  terminal_stable hm ht

theorem sampleTrace_monotone : MonotoneTrace sampleTrace := by
  intro n
  match n with
  | 0 => exact Or.inr (Or.inl (by decide))
  | 1 => exact Or.inr (Or.inr ⟨by decide, "step1", by decide⟩)
  | 2 => exact Or.inr (Or.inl (by decide))
  | n + 3 => exact Or.inl rfl

/-- C2 witness: a run accepted → running → running-with-progress-append →
finished; every read from instant 3 on returns the same finished record. -/
theorem terminal_state_monotonic_witness :
    MonotoneTrace sampleTrace ∧ isTerminal (sampleTrace 3).state = true ∧
    sampleTrace 9 = sampleTrace 3 :=
  ⟨sampleTrace_monotone, by decide,
   terminal_state_monotonic sampleTrace sampleTrace_monotone 3 (by decide)
     9 (by decide)⟩

theorem enqueue_jobs_fresh (s : SysState) (qname : String)
    (d : RequestDescriptor) (cal : String) (now : Nat) :
    (enqueue s qname d cal now).2.jobs s.nextId =
      some ⟨.accepted, [], none, none, now, none, none⟩ := by
  simp [enqueue]

theorem enqueue_jobs_other {s : SysState} {id : Nat} (qname : String)
    (d : RequestDescriptor) (cal : String) (now : Nat) (hne : id ≠ s.nextId) :
    (enqueue s qname d cal now).2.jobs id = s.jobs id := by
  simp [enqueue, hne]

theorem dequeue_jobs (s : SysState) (qname : String) (id : Nat) :
    (dequeue s qname).2.jobs id = s.jobs id := by
  unfold dequeue
  split <;> rfl

theorem dequeue_nextId (s : SysState) (qname : String) :
    (dequeue s qname).2.nextId = s.nextId := by
  unfold dequeue
  split <;> rfl

theorem markRunning_nextId (s : SysState) (oid onow : Nat) :
    (markRunning s oid onow).nextId = s.nextId := by
  unfold markRunning
  split
  · split <;> rfl
  · rfl

theorem markRunning_jobs_none {s : SysState} {j : Nat} (oid onow : Nat)
    (hj : s.jobs j = none) : (markRunning s oid onow).jobs j = none := by
  unfold markRunning
  split
  · rename_i r0 hjo
    split
    · have hne : j ≠ oid := by
        intro h; rw [h, hjo] at hj; exact Option.noConfusion hj
      simpa [hne] using hj
    · exact hj
  · exact hj

theorem markRunning_mono {s : SysState} {oid onow id : Nat}
    {r : JobStatusRecord} (hr : s.jobs id = some r) :
    ∃ r', (markRunning s oid onow).jobs id = some r' ∧
      reachable r.state r'.state = true := by
  unfold markRunning
  cases hjo : s.jobs oid with
  | none => exact ⟨r, hr, reachable_refl _⟩
  | some r0 =>
      dsimp only
      by_cases hg : r0.state = .accepted
      · rw [if_pos hg]
        by_cases hid : id = oid
        · subst hid
          rw [hr] at hjo
          injection hjo with hjo0
          subst hjo0
          refine ⟨{ r with state := .running, startedAt := some onow }, by simp, ?_⟩
          rw [hg]
          rfl
        · exact ⟨r, by simp [hid, hr], reachable_refl _⟩
      · rw [if_neg hg]
        exact ⟨r, hr, reachable_refl _⟩

theorem markFinished_nextId (s : SysState) (oid : Nat) (payload : String)
    (onow : Nat) : (markFinished s oid payload onow).nextId = s.nextId := by
  unfold markFinished
  split
  · split <;> rfl
  · rfl

theorem markFinished_jobs_none {s : SysState} {j : Nat} (oid : Nat)
    (payload : String) (onow : Nat) (hj : s.jobs j = none) :
    (markFinished s oid payload onow).jobs j = none := by
  unfold markFinished
  split
  · rename_i r0 hjo
    split
    · have hne : j ≠ oid := by
        intro h; rw [h, hjo] at hj; exact Option.noConfusion hj
      simpa [hne] using hj
    · exact hj
  · exact hj

theorem markFinished_mono {s : SysState} {oid id : Nat} {payload : String}
    {onow : Nat} {r : JobStatusRecord} (hr : s.jobs id = some r) :
    ∃ r', (markFinished s oid payload onow).jobs id = some r' ∧
      reachable r.state r'.state = true := by
  unfold markFinished
  cases hjo : s.jobs oid with
  | none => exact ⟨r, hr, reachable_refl _⟩
  | some r0 =>
      dsimp only
      by_cases hg : r0.state = .running
      · rw [if_pos hg]
        by_cases hid : id = oid
        · subst hid
          rw [hr] at hjo
          injection hjo with hjo0
          subst hjo0
          refine ⟨{ r with state := .finished, result := some payload, endedAt := some onow }, by simp, ?_⟩
          rw [hg]
          rfl
        · exact ⟨r, by simp [hid, hr], reachable_refl _⟩
      · rw [if_neg hg]
        exact ⟨r, hr, reachable_refl _⟩

theorem markError_nextId (s : SysState) (oid : Nat) (kind msg : String)
    (onow : Nat) : (markError s oid kind msg onow).nextId = s.nextId := by
  unfold markError
  split
  · split <;> rfl
  · rfl

theorem markError_jobs_none {s : SysState} {j : Nat} (oid : Nat)
    (kind msg : String) (onow : Nat) (hj : s.jobs j = none) :
    (markError s oid kind msg onow).jobs j = none := by
  unfold markError
  split
  · rename_i r0 hjo
    split
    · have hne : j ≠ oid := by
        intro h; rw [h, hjo] at hj; exact Option.noConfusion hj
      simpa [hne] using hj
    · exact hj
  · exact hj

theorem markError_mono {s : SysState} {oid id : Nat} {kind msg : String}
    {onow : Nat} {r : JobStatusRecord} (hr : s.jobs id = some r) :
    ∃ r', (markError s oid kind msg onow).jobs id = some r' ∧
      reachable r.state r'.state = true := by
  unfold markError
  cases hjo : s.jobs oid with
  | none => exact ⟨r, hr, reachable_refl _⟩
  | some r0 =>
      dsimp only
      by_cases hg : r0.state = .running
      · rw [if_pos hg]
        by_cases hid : id = oid
        · subst hid
          rw [hr] at hjo
          injection hjo with hjo0
          subst hjo0
          refine ⟨{ r with state := .error, errorPayload := some (kind, msg), endedAt := some onow }, by simp, ?_⟩
          rw [hg]
          rfl
        · exact ⟨r, by simp [hid, hr], reachable_refl _⟩
      · rw [if_neg hg]
        exact ⟨r, hr, reachable_refl _⟩

theorem markTimeout_nextId (s : SysState) (oid onow : Nat) :
    (markTimeout s oid onow).nextId = s.nextId := by
  unfold markTimeout
  split
  · split <;> rfl
  · rfl

theorem markTimeout_jobs_none {s : SysState} {j : Nat} (oid onow : Nat)
    (hj : s.jobs j = none) : (markTimeout s oid onow).jobs j = none := by
  unfold markTimeout
  split
  · rename_i r0 hjo
    split
    · have hne : j ≠ oid := by
        intro h; rw [h, hjo] at hj; exact Option.noConfusion hj
      simpa [hne] using hj
    · exact hj
  · exact hj

theorem markTimeout_mono {s : SysState} {oid onow id : Nat}
    {r : JobStatusRecord} (hr : s.jobs id = some r) :
    ∃ r', (markTimeout s oid onow).jobs id = some r' ∧
      reachable r.state r'.state = true := by
  unfold markTimeout
  cases hjo : s.jobs oid with
  | none => exact ⟨r, hr, reachable_refl _⟩
  | some r0 =>
      dsimp only
      by_cases hg : r0.state = .running
      · rw [if_pos hg]
        by_cases hid : id = oid
        · subst hid
          rw [hr] at hjo
          injection hjo with hjo0
          subst hjo0
          refine ⟨{ r with state := .timeout, endedAt := some onow }, by simp, ?_⟩
          rw [hg]
          rfl
        · exact ⟨r, by simp [hid, hr], reachable_refl _⟩
      · rw [if_neg hg]
        exact ⟨r, hr, reachable_refl _⟩

theorem appendProgress_nextId (s : SysState) (oid : Nat) (msg : String) :
    (appendProgress s oid msg).nextId = s.nextId := by
  unfold appendProgress
  split
  · split <;> rfl
  · rfl

theorem appendProgress_jobs_none {s : SysState} {j : Nat} (oid : Nat)
    (msg : String) (hj : s.jobs j = none) :
    (appendProgress s oid msg).jobs j = none := by
  unfold appendProgress
  split
  · rename_i r0 hjo
    split
    · have hne : j ≠ oid := by
        intro h; rw [h, hjo] at hj; exact Option.noConfusion hj
      simpa [hne] using hj
    · exact hj
  · exact hj

theorem appendProgress_mono {s : SysState} {oid id : Nat} {msg : String}
    {r : JobStatusRecord} (hr : s.jobs id = some r) :
    ∃ r', (appendProgress s oid msg).jobs id = some r' ∧
      reachable r.state r'.state = true := by
  unfold appendProgress
  cases hjo : s.jobs oid with
  | none => exact ⟨r, hr, reachable_refl _⟩
  | some r0 =>
      dsimp only
      by_cases hg : r0.state = .running
      · rw [if_pos hg]
        by_cases hid : id = oid
        · subst hid
          rw [hr] at hjo
          injection hjo with hjo0
          subst hjo0
          exact ⟨{ r with progress := r.progress ++ [msg] }, by simp, reachable_refl _⟩
        · exact ⟨r, by simp [hid, hr], reachable_refl _⟩
      · rw [if_neg hg]
        exact ⟨r, hr, reachable_refl _⟩

theorem sysStep_wf {s s' : SysState} (hstep : SysStep s s') (hwf : SysWF s) :
    SysWF s' := by
  cases hstep with
  | enq qname d cal now =>
      intro j hj
      have hj1 : s.nextId + 1 ≤ j := hj
      have hne : j ≠ s.nextId := by omega
      rw [enqueue_jobs_other qname d cal now hne]
      exact hwf j (by omega)
  | deq qname =>
      intro j hj
      rw [dequeue_nextId] at hj
      rw [dequeue_jobs]
      exact hwf j hj
  | toRunning oid onow =>
      intro j hj
      rw [markRunning_nextId] at hj
      exact markRunning_jobs_none oid onow (hwf j hj)
  | toFinished oid payload onow =>
      intro j hj
      rw [markFinished_nextId] at hj
      exact markFinished_jobs_none oid payload onow (hwf j hj)
  | toError oid kind msg onow =>
      intro j hj
      rw [markError_nextId] at hj
      exact markError_jobs_none oid kind msg onow (hwf j hj)
  | toTimeout oid onow =>
      intro j hj
      rw [markTimeout_nextId] at hj
      exact markTimeout_jobs_none oid onow (hwf j hj)
  | prog oid msg =>
      intro j hj
      rw [appendProgress_nextId] at hj
      exact appendProgress_jobs_none oid msg (hwf j hj)

theorem sysStep_mono {s s' : SysState} (hstep : SysStep s s') (hwf : SysWF s)
    {id : Nat} {r : JobStatusRecord} (hr : s.jobs id = some r) :
    ∃ r', s'.jobs id = some r' ∧ reachable r.state r'.state = true := by
  cases hstep with
  | enq qname d cal now =>
      have hne : id ≠ s.nextId := by
        intro h
        rw [h, hwf s.nextId (le_refl _)] at hr
        exact Option.noConfusion hr
      exact ⟨r, by rw [enqueue_jobs_other qname d cal now hne]; exact hr,
        reachable_refl _⟩
  | deq qname =>
      exact ⟨r, by rw [dequeue_jobs]; exact hr, reachable_refl _⟩
  | toRunning oid onow => exact markRunning_mono hr
  | toFinished oid payload onow => exact markFinished_mono hr
  | toError oid kind msg onow => exact markError_mono hr
  | toTimeout oid onow => exact markTimeout_mono hr
  | prog oid msg => exact appendProgress_mono hr

theorem sysSteps_mono {s s' : SysState} (hsteps : SysSteps s s')
    (hwf : SysWF s) {id : Nat} {r : JobStatusRecord}
    (hr : s.jobs id = some r) :
    SysWF s' ∧ ∃ r', s'.jobs id = some r' ∧ reachable r.state r'.state = true := by
  induction hsteps with
  | refl => exact ⟨hwf, r, hr, reachable_refl _⟩
  | tail hab hbc ih =>
      obtain ⟨hwfb, rb, hrb, hreach⟩ := ih
      obtain ⟨rc, hrc, hreach2⟩ := sysStep_mono hbc hwfb hrb
      exact ⟨sysStep_wf hbc hwfb, rc, hrc, reachable_trans hreach hreach2⟩

/-- Bridge between the system model and record histories: any single store
operation makes an existing job's record perform one legal `RecordStep`
(stutter, an allowed state transition, or a progress append while running),
so a `MonotoneTrace` history is exactly what a poller of the system can
observe for one job identifier. -/
theorem sysStep_recordStep {s s' : SysState} (hstep : SysStep s s')
    (hwf : SysWF s) {id : Nat} {r : JobStatusRecord}
    (hr : s.jobs id = some r) :
    ∃ r', s'.jobs id = some r' ∧ RecordStep r r' := by
  cases hstep with
  | enq qname d cal now =>
      have hne : id ≠ s.nextId := by
        intro h
        rw [h, hwf s.nextId (le_refl _)] at hr
        exact Option.noConfusion hr
      exact ⟨r, by rw [enqueue_jobs_other qname d cal now hne]; exact hr,
        Or.inl rfl⟩
  | deq qname =>
      exact ⟨r, by rw [dequeue_jobs]; exact hr, Or.inl rfl⟩
  | toRunning oid onow =>
      unfold markRunning
      cases hjo : s.jobs oid with
      | none => exact ⟨r, hr, Or.inl rfl⟩
      | some r0 =>
          dsimp only
          by_cases hg : r0.state = .accepted
          · rw [if_pos hg]
            by_cases hid : id = oid
            · subst hid
              rw [hr] at hjo
              injection hjo with hjo0
              subst hjo0
              refine ⟨{ r with state := .running, startedAt := some onow }, by simp, ?_⟩
              refine Or.inr (Or.inl ?_)
              rw [hg]
              rfl
            · exact ⟨r, by simp [hid, hr], Or.inl rfl⟩
          · rw [if_neg hg]
            exact ⟨r, hr, Or.inl rfl⟩
  | toFinished oid payload onow =>
      unfold markFinished
      cases hjo : s.jobs oid with
      | none => exact ⟨r, hr, Or.inl rfl⟩
      | some r0 =>
          dsimp only
          by_cases hg : r0.state = .running
          · rw [if_pos hg]
            by_cases hid : id = oid
            · subst hid
              rw [hr] at hjo
              injection hjo with hjo0
              subst hjo0
              refine ⟨{ r with state := .finished, result := some payload, endedAt := some onow }, by simp, ?_⟩
              refine Or.inr (Or.inl ?_)
              rw [hg]
              rfl
            · exact ⟨r, by simp [hid, hr], Or.inl rfl⟩
          · rw [if_neg hg]
            exact ⟨r, hr, Or.inl rfl⟩
  | toError oid kind msg onow =>
      unfold markError
      cases hjo : s.jobs oid with
      | none => exact ⟨r, hr, Or.inl rfl⟩
      | some r0 =>
          dsimp only
          by_cases hg : r0.state = .running
          · rw [if_pos hg]
            by_cases hid : id = oid
            · subst hid
              rw [hr] at hjo
              injection hjo with hjo0
              subst hjo0
              refine ⟨{ r with state := .error, errorPayload := some (kind, msg), endedAt := some onow }, by simp, ?_⟩
              refine Or.inr (Or.inl ?_)
              rw [hg]
              rfl
            · exact ⟨r, by simp [hid, hr], Or.inl rfl⟩
          · rw [if_neg hg]
            exact ⟨r, hr, Or.inl rfl⟩
  | toTimeout oid onow =>
      unfold markTimeout
      cases hjo : s.jobs oid with
      | none => exact ⟨r, hr, Or.inl rfl⟩
      | some r0 =>
          dsimp only
          by_cases hg : r0.state = .running
          · rw [if_pos hg]
            by_cases hid : id = oid
            · subst hid
              rw [hr] at hjo
              injection hjo with hjo0
              subst hjo0
              refine ⟨{ r with state := .timeout, endedAt := some onow }, by simp, ?_⟩
              refine Or.inr (Or.inl ?_)
              rw [hg]
              rfl
            · exact ⟨r, by simp [hid, hr], Or.inl rfl⟩
          · rw [if_neg hg]
            exact ⟨r, hr, Or.inl rfl⟩
  | prog oid msg =>
      unfold appendProgress
      cases hjo : s.jobs oid with
      | none => exact ⟨r, hr, Or.inl rfl⟩
      | some r0 =>
          dsimp only
          by_cases hg : r0.state = .running
          · rw [if_pos hg]
            by_cases hid : id = oid
            · subst hid
              rw [hr] at hjo
              injection hjo with hjo0
              subst hjo0
              exact ⟨{ r with progress := r.progress ++ [msg] }, by simp,
                Or.inr (Or.inr ⟨hg, msg, rfl⟩)⟩
            · exact ⟨r, by simp [hid, hr], Or.inl rfl⟩
          · rw [if_neg hg]
            exact ⟨r, hr, Or.inl rfl⟩

/-- C3: `enqueue` creates the job's status record in state `accepted`
atomically with making the entry visible: a status read immediately after
enqueue returns the `accepted` record, and after any further sequence of
store operations a status read still finds a record — `accepted` or a later
lifecycle state — never a not-found result. -/
theorem enqueue_status_atomic (s : SysState) (qname : String)
    (d : RequestDescriptor) (cal : String) (now : Nat) (s2 : SysState)
    (hwf : SysWF s)
    (hsteps : SysSteps (enqueue s qname d cal now).2 s2) :
    jobStatus (enqueue s qname d cal now).2 (enqueue s qname d cal now).1 =
      some ⟨.accepted, [], none, none, now, none, none⟩ ∧
    ∃ r, jobStatus s2 (enqueue s qname d cal now).1 = some r ∧
      reachable .accepted r.state = true := by
  have h0 := enqueue_jobs_fresh s qname d cal now
  have hwf1 : SysWF (enqueue s qname d cal now).2 :=
    sysStep_wf (SysStep.enq s qname d cal now) hwf
  obtain ⟨-, r, hr, hreach⟩ := sysSteps_mono hsteps hwf1 h0
  exact ⟨h0, r, hr, hreach⟩

/-- C3 witness: enqueue into the empty system, then let a worker mark the
job running; the status read is `accepted` right after enqueue and still
found (in a later state) after the worker's step. -/
theorem enqueue_status_atomic_witness :
    SysWF sys0 ∧
    (jobStatus sysEnq 0 = some ⟨.accepted, [], none, none, 0, none, none⟩ ∧
     ∃ r, jobStatus (markRunning sysEnq 0 1) 0 = some r ∧
       reachable .accepted r.state = true) := by
  have hwf : SysWF sys0 := fun j _ => rfl
  have hsteps : SysSteps sysEnq (markRunning sysEnq 0 1) :=
    Relation.ReflTransGen.single (SysStep.toRunning sysEnq 0 1)
  exact ⟨hwf, enqueue_status_atomic sys0 "default" sampleDescriptor
    "read_current_region" 0 (markRunning sysEnq 0 1) hwf hsteps⟩

/-- C8: when the job outlasts the waiter, the waiter returns
`(timeout, none)`, and the job keeps running server-side: along the same
(unaltered) worker history, every status read at or after the completion
instant returns `finished`. -/
theorem client_timeout_no_cancel (trace : Nat → JobStatusRecord)
    (timeout tf : Nat) (hm : MonotoneTrace trace)
    (hnot : ∀ t, t ≤ timeout → isTerminal (trace t).state = false)
    (hfin : (trace tf).state = .finished) :
    waitForTerminal trace timeout = (.timeout, none) ∧
    ∀ t, tf ≤ t → (trace t).state = .finished := by
  constructor
  · unfold waitForTerminal
    have hfind : (List.range (timeout + 1)).find?
        (fun t => isTerminal (trace t).state) = none := by
      rw [List.find?_eq_none]
      intro t ht
      rw [List.mem_range] at ht
      simp [hnot t (Nat.lt_succ_iff.mp ht)]
    rw [hfind]
  · intro t ht
    have hterm : isTerminal (trace tf).state = true := by rw [hfin]; rfl
    have := terminal_stable hm hterm t ht
    rw [this, hfin]

/-- C8 witness: a job that is still running (and logs a progress message
at instant 2) past the waiter's deadline 2 and finishes at instant 3: the
waiter reports `(timeout, none)` while a later status read at instant 9
returns `finished`. -/
theorem client_timeout_no_cancel_witness :
    MonotoneTrace sampleTrace ∧ (sampleTrace 3).state = .finished ∧
    (waitForTerminal sampleTrace 2 = (.timeout, none) ∧
     ∀ t, 3 ≤ t → (sampleTrace t).state = .finished) := by
  refine ⟨sampleTrace_monotone, by decide, ?_⟩
  refine client_timeout_no_cancel sampleTrace 2 3 sampleTrace_monotone ?_ (by decide)
  intro t ht
  match t, ht with
  | 0, _ => decide
  | 1, _ => decide
  | 2, _ => decide

/-- C4: evaluation at the failing input.  With preprocessing failed
(`rdc = none`), `ListMapsetsResource.get` rejects before enqueue as the
spec requires, but `MapsetManagementResourceUser.get` still hands the entry
to `enqueue_job`, so a malformed request does reach the job queue on that
endpoint — the claim "for every endpoint" fails on the code. -/
theorem validation_precedes_enqueue_refuted :
    ListMapsetsResource.get none = ⟨[], true⟩ ∧
    MapsetManagementResourceUser.get none =
      ⟨[("read_current_region", none)], true⟩ :=
  ⟨rfl, rfl⟩

/-- C9: the lock-status query is read-only — it returns the store exactly
as it was — and answers with the stored record precisely when an unexpired
lock exists at the path, and with an absent answer otherwise. -/
theorem lock_status_readonly (st : LockStore) (path : String) (now : Nat) :
    (lockStatus st path now).2 = st ∧
    (∀ r, st path = some r → r.unexpired now = true →
        (lockStatus st path now).1 = some r) ∧
    (∀ r, st path = some r → r.unexpired now = false →
        (lockStatus st path now).1 = none) ∧
    (st path = none → (lockStatus st path now).1 = none) := by
  refine ⟨rfl, ?_, ?_, ?_⟩
  · intro r hr hun
    show lockGet st path now = some r
    rw [lockGet_of_some hr, hun]
    simp
  · intro r hr hun
    show lockGet st path now = none
    rw [lockGet_of_some hr, hun]
    simp
  · intro h0
    exact lockGet_of_none h0

/-- C9 witness: on the concrete store, the query answers the unexpired
record at instant 1, absent at instant 7 (expired) and absent on an
unlocked path, all without touching the store. -/
theorem lock_status_readonly_witness :
    (lockStatus lockStoreA "loc/mapset" 1).2 = lockStoreA ∧
    (lockStatus lockStoreA "loc/mapset" 1).1 = some ⟨"worker-A", 0, 5⟩ ∧
    (lockStatus lockStoreA "loc/mapset" 7).1 = none ∧
    (lockStatus lockStoreA "other" 1).1 = none :=
  ⟨(lock_status_readonly lockStoreA "loc/mapset" 1).1,
   (lock_status_readonly lockStoreA "loc/mapset" 1).2.1
     ⟨"worker-A", 0, 5⟩ (by decide) (by decide),
   (lock_status_readonly lockStoreA "loc/mapset" 7).2.2.1
     ⟨"worker-A", 0, 5⟩ (by decide) (by decide),
   (lock_status_readonly lockStoreA "other" 1).2.2.2 (by decide)⟩

/-- C10: the modify-region endpoint is unimplemented — for every input the
method enqueues no job and produces no HTTP response (the Python body is
`pass`, so the method returns `None`), hence a PUT caller never receives
the documented HTTP 200/400 response body. -/
theorem put_region_unimplemented (locationName mapsetName : String) :
    MapsetManagementResourceAdmin.put locationName mapsetName = ⟨[], false⟩ :=
  rfl

end Actinia

